import Mathlib

/-!
Shallow embedding of the atrom.token fungible-token ledger
(src/include/atrom.token/atrom.token.hpp).

The repository ships only the contract header: the table structs
(`account`, `currency_stats`, their `primary_key` members) and the
read-only queries `get_supply` / `get_balance` are implemented there and
are translated directly from the source.  The bodies of the actions
(`create`, `issue`, `retire`, `transfer`, `open`, `close`) and of the
internal primitives `sub_balance` / `add_balance` are only declared in
the header; those are modelled from the spec (see the doc comments).
Host-level concerns (authority checks, RAM billing, serialization) are
the host collaborator's and are outside the state model.
-/

namespace AtromToken

/-- A token symbol: a short alphabetic code plus a decimal precision.
Embeds the host `symbol` type (code abstracted as a natural number,
`0` standing for the empty code). -/
structure Symbol where
  code : Nat
  precision : Nat
deriving DecidableEq, Repr

/-- Symbol validity per the spec: non-empty code, precision 0-18. -/
def Symbol.isValid (s : Symbol) : Bool :=
  decide (s.code ≠ 0) && decide (s.precision ≤ 18)

/-- The system-wide amount ceiling: `2^62 - 1`. -/
def maxAmount : Int := 2 ^ 62 - 1

/-- A fixed-point amount with its symbol (the host `asset` type:
signed 64-bit magnitude plus symbol). -/
structure Asset where
  amount : Int
  sym : Symbol
deriving DecidableEq, Repr

/-- An account name (the host `name` type, abstracted). -/
abbrev Name := Nat

/-- Table row `account` (atrom.token.hpp lines 157-161). -/
structure Account where
  balance : Asset
deriving DecidableEq, Repr

/-- `account::primary_key` (atrom.token.hpp line 160):
`balance.symbol.code().raw()`. -/
def Account.primary_key (a : Account) : Nat := a.balance.sym.code

/-- Table row `currency_stats` (atrom.token.hpp lines 163-169). -/
structure CurrencyStats where
  supply : Asset
  max_supply : Asset
  issuer : Name
deriving DecidableEq, Repr

/-- `currency_stats::primary_key` (atrom.token.hpp line 168):
`supply.symbol.code().raw()`. -/
def CurrencyStats.primary_key (c : CurrencyStats) : Nat := c.supply.sym.code

/-- Primary-key lookup in a multi_index table, embedded as first-match
search in an association list (the host's lookup-or-absent primitive). -/
def alookup {α β : Type} [DecidableEq α] : List (α × β) → α → Option β
  | [], _ => none
  | (k', v) :: t, k => if k = k' then some v else alookup t k

/-- In-place modify of the row with key `k` (the host's
update-with-owner-billing primitive); appends when the key is absent. -/
def aset {α β : Type} [DecidableEq α] : List (α × β) → α → β → List (α × β)
  | [], k, v => [(k, v)]
  | (k', v') :: t, k, v => if k = k' then (k, v) :: t else (k', v') :: aset t k v

/-- Erase of the row with key `k` (the host's erase primitive). -/
def aerase {α β : Type} [DecidableEq α] : List (α × β) → α → List (α × β)
  | [], _ => []
  | (k', v') :: t, k => if k = k' then t else (k', v') :: aerase t k

/-- The ledger state: the `stat` table keyed by raw symbol code, and the
`accounts` tables for all owners, keyed by (owner scope, primary key). -/
structure State where
  stats : List (Nat × CurrencyStats)
  accounts : List ((Name × Nat) × Account)
deriving DecidableEq, Repr

/-- The empty ledger: no tokens created, no balance rows. -/
def State.empty : State := ⟨[], []⟩

/-- The error kinds of the spec's error-handling design. -/
inductive Err
  | InvalidSymbol
  | DuplicateSymbol
  | InvalidSupply
  | SupplyOverflow
  | SupplyCeilingExceeded
  | SymbolNotFound
  | AuthorityMismatch
  | InsufficientBalance
  | SymbolMismatch
  | InvalidQuantity
  | MemoTooLong
deriving DecidableEq, Repr

/-- Modelled from the spec: the body of `token::create` is not present
under src (atrom.token.hpp lines 35-37 declare it only).  Preconditions
in the spec's order: valid symbol, no existing TokenStats row, positive
maximum supply, maximum supply within `2^62 - 1`.  Effect: insert a
TokenStats row with zero supply.  The caller-authority check is the
host's injected capability and is outside the state model. -/
def create (issuer : Name) (maximum_supply : Asset) (s : State) : Except Err State :=
  if !maximum_supply.sym.isValid then .error .InvalidSymbol
  else if (alookup s.stats maximum_supply.sym.code).isSome then .error .DuplicateSymbol
  else if maximum_supply.amount ≤ 0 then .error .InvalidSupply
  else if maxAmount < maximum_supply.amount then .error .SupplyOverflow
  else .ok { s with stats :=
    (maximum_supply.sym.code, ⟨⟨0, maximum_supply.sym⟩, maximum_supply, issuer⟩) :: s.stats }

/-- Modelled from the spec: the body of `token::add_balance` is not
present under src (atrom.token.hpp line 187 declares it only).  Credits
`owner` with `value`, creating the row if absent (billed to `ram_payer`,
a host concern); asset arithmetic rejects mismatched symbols and
overflow past `2^62 - 1`. -/
def add_balance (owner : Name) (value : Asset) (ram_payer : Name) (s : State) :
    Except Err State :=
  match alookup s.accounts (owner, value.sym.code) with
  | none => .ok { s with accounts := ((owner, value.sym.code), ⟨value⟩) :: s.accounts }
  | some a =>
      if a.balance.sym ≠ value.sym then .error .SymbolMismatch
      else if maxAmount < a.balance.amount + value.amount then .error .SupplyOverflow
      else
        let b : Account := ⟨⟨a.balance.amount + value.amount, a.balance.sym⟩⟩
        .ok { s with accounts := aset s.accounts (owner, value.sym.code) b }

/-- Modelled from the spec: the body of `token::sub_balance` is not
present under src (atrom.token.hpp line 186 declares it only).  Fails
with SymbolMismatch when no row exists or the row's symbol differs, and
with InsufficientBalance when the balance is below `value.amount`. -/
def sub_balance (owner : Name) (value : Asset) (s : State) : Except Err State :=
  match alookup s.accounts (owner, value.sym.code) with
  | none => .error .SymbolMismatch
  | some a =>
      if a.balance.sym ≠ value.sym then .error .SymbolMismatch
      else if a.balance.amount < value.amount then .error .InsufficientBalance
      else
        let b : Account := ⟨⟨a.balance.amount - value.amount, a.balance.sym⟩⟩
        .ok { s with accounts := aset s.accounts (owner, value.sym.code) b }

/-- Modelled from the spec: the body of `token::issue` is not present
under src (atrom.token.hpp lines 45-46 declare it only).  Preconditions:
existing TokenStats row, `to` equals the stored issuer, memo within 256
bytes, positive amount, exact symbol match, amount within the remaining
ceiling.  Effect: increment supply and credit the issuer's balance. -/
def issue (toA : Name) (quantity : Asset) (memo : String) (s : State) : Except Err State :=
  match alookup s.stats quantity.sym.code with
  | none => .error .SymbolNotFound
  | some st =>
      if toA ≠ st.issuer then .error .AuthorityMismatch
      else if 256 < memo.length then .error .MemoTooLong
      else if quantity.amount ≤ 0 then .error .InvalidQuantity
      else if quantity.sym ≠ st.supply.sym then .error .InvalidQuantity
      else if st.max_supply.amount - st.supply.amount < quantity.amount then
        .error .SupplyCeilingExceeded
      else
        let st' : CurrencyStats :=
          { st with supply := ⟨st.supply.amount + quantity.amount, st.supply.sym⟩ }
        add_balance st.issuer quantity st.issuer
          { s with stats := aset s.stats quantity.sym.code st' }

/-- Modelled from the spec: the body of `token::retire` is not present
under src (atrom.token.hpp lines 89-90 declare it only).  Preconditions:
existing TokenStats row, positive amount, exact symbol match; the
issuer-authority check is the host's.  Effect: decrement supply and
debit the issuer's balance (InsufficientBalance when it would go
negative). -/
def retire (quantity : Asset) (memo : String) (s : State) : Except Err State :=
  match alookup s.stats quantity.sym.code with
  | none => .error .SymbolNotFound
  | some st =>
      if quantity.amount ≤ 0 then .error .InvalidQuantity
      else if quantity.sym ≠ st.supply.sym then .error .InvalidQuantity
      else
        let st' : CurrencyStats :=
          { st with supply := ⟨st.supply.amount - quantity.amount, st.supply.sym⟩ }
        sub_balance st.issuer quantity
          { s with stats := aset s.stats quantity.sym.code st' }

/-- Modelled from the spec: the body of `token::transfer` is not present
under src (atrom.token.hpp lines 101-105 declare it only).
Preconditions: `from ≠ to`, existing TokenStats row, memo within 256
bytes, positive amount, symbol match; the `from`-authority check is the
host's.  Effect: debit `from` then credit `to` in one transaction. -/
def transfer (fr toA : Name) (quantity : Asset) (memo : String) (s : State) :
    Except Err State :=
  if fr = toA then .error .InvalidQuantity
  else match alookup s.stats quantity.sym.code with
  | none => .error .SymbolNotFound
  | some st =>
      if 256 < memo.length then .error .MemoTooLong
      else if quantity.amount ≤ 0 then .error .InvalidQuantity
      else if quantity.sym ≠ st.supply.sym then .error .SymbolMismatch
      else match sub_balance fr quantity s with
        | .error e => .error e
        | .ok s1 => add_balance toA quantity fr s1

/-- Modelled from the spec: the body of `token::open` is not present
under src (atrom.token.hpp lines 117-118 declare it only).  Precondition:
the symbol has an existing TokenStats row; the `ram_payer` co-authority
is the host's.  Effect: create a zero-balance row for `owner` if absent
(idempotent, no error when already open). -/
def openAct (owner : Name) (sym : Symbol) (ram_payer : Name) (s : State) :
    Except Err State :=
  match alookup s.stats sym.code with
  | none => .error .SymbolNotFound
  | some _ =>
      match alookup s.accounts (owner, sym.code) with
      | some _ => .ok s
      | none => .ok { s with accounts := ((owner, sym.code), ⟨⟨0, sym⟩⟩) :: s.accounts }

/-- Modelled from the spec: the body of `token::close` is not present
under src (atrom.token.hpp lines 130-131 declare it only).  When the
(owner, symbol) row exists its balance must be zero, and the row is
erased; an absent row is a silent no-op. -/
def closeAct (owner : Name) (sym : Symbol) (s : State) : Except Err State :=
  match alookup s.accounts (owner, sym.code) with
  | none => .ok s
  | some a =>
      if a.balance.amount ≠ 0 then .error .InsufficientBalance
      else .ok { s with accounts := aerase s.accounts (owner, sym.code) }

/-- `token::get_supply` (atrom.token.hpp lines 133-138): primary-key get
on the `stat` table, returning the row's `supply` field; fails (returns
`none`) when the row is absent. -/
def get_supply (s : State) (sym_code : Nat) : Option Asset :=
  (alookup s.stats sym_code).map fun st => st.supply

/-- `token::get_balance` (atrom.token.hpp lines 140-145): primary-key
get on `owner`'s `accounts` table, returning the row's `balance` field;
fails (returns `none`) when the row is absent. -/
def get_balance (s : State) (owner : Name) (sym_code : Nat) : Option Asset :=
  (alookup s.accounts (owner, sym_code)).map fun ac => ac.balance

/-- The action surface of the ledger core. -/
inductive Op
  | createOp (issuer : Name) (maximum_supply : Asset)
  | issueOp (toA : Name) (quantity : Asset) (memo : String)
  | retireOp (quantity : Asset) (memo : String)
  | transferOp (fr toA : Name) (quantity : Asset) (memo : String)
  | openOp (owner : Name) (sym : Symbol) (ram_payer : Name)
  | closeOp (owner : Name) (sym : Symbol)

/-- Dispatch an action to its handler. -/
def exec (op : Op) (s : State) : Except Err State :=
  match op with
  | .createOp issuer m => create issuer m s
  | .issueOp toA q memo => issue toA q memo s
  | .retireOp q memo => retire q memo s
  | .transferOp fr toA q memo => transfer fr toA q memo s
  | .openOp owner sym payer => openAct owner sym payer s
  | .closeOp owner sym => closeAct owner sym s

/-- Transactional execution: a failed action aborts and leaves the state
unchanged (the host rolls back the whole transaction). -/
def applyOp (op : Op) (s : State) : State :=
  match exec op s with
  | .ok s' => s'
  | .error _ => s

/-- States reachable from the empty ledger by any sequence of actions
(failed actions leave the state in place). -/
inductive Reachable : State → Prop
  | empty : Reachable State.empty
  | step (op : Op) {s : State} : Reachable s → Reachable (applyOp op s)

/-- Sum of the balance amounts of all rows of a given symbol code. -/
def sumBal (code : Nat) : List ((Name × Nat) × Account) → Int
  | [] => 0
  | p :: t => (if p.1.2 = code then p.2.balance.amount else 0) + sumBal code t

/-- The balance amount held by `owner` in symbol code `c`, zero when the
row is absent. -/
def balAmt (s : State) (owner : Name) (c : Nat) : Int :=
  match alookup s.accounts (owner, c) with
  | some a => a.balance.amount
  | none => 0

theorem alookup_aset {α β : Type} [DecidableEq α] (l : List (α × β)) (k k' : α) (v : β) :
    alookup (aset l k v) k' = if k' = k then some v else alookup l k' := by
  induction l with
  | nil => simp [aset, alookup]
  | cons h t ih =>
      obtain ⟨k'', v''⟩ := h
      by_cases hk : k = k''
      · subst hk
        by_cases hk' : k' = k <;> simp [aset, alookup, hk']
      · by_cases hk' : k' = k''
        · subst hk'
          simp [aset, alookup, hk, Ne.symm hk, ih]
        · simp [aset, alookup, hk, hk', ih]

theorem mem_aset {α β : Type} [DecidableEq α] {l : List (α × β)} {k : α} {v : β}
    {p : α × β} (hp : p ∈ aset l k v) : p = (k, v) ∨ p ∈ l := by
  induction l with
  | nil => simpa [aset] using hp
  | cons h t ih =>
      by_cases hk : k = h.1
      · rw [show h = (h.1, h.2) from rfl, aset, if_pos hk] at hp
        rcases List.mem_cons.1 hp with h1 | h1
        · exact Or.inl h1
        · exact Or.inr (List.mem_cons_of_mem _ h1)
      · rw [show h = (h.1, h.2) from rfl, aset, if_neg hk] at hp
        rcases List.mem_cons.1 hp with h1 | h1
        · exact Or.inr (by simp [h1])
        · rcases ih h1 with h2 | h2
          · exact Or.inl h2
          · exact Or.inr (List.mem_cons_of_mem _ h2)

theorem alookup_mem {α β : Type} [DecidableEq α] {l : List (α × β)} {k : α} {a : β}
    (h : alookup l k = some a) : (k, a) ∈ l := by
  induction l with
  | nil => simp [alookup] at h
  | cons hd t ih =>
      obtain ⟨k'', v''⟩ := hd
      by_cases hk : k = k''
      · subst hk
        simp [alookup] at h
        simp [h]
      · rw [alookup, if_neg hk] at h
        exact List.mem_cons_of_mem _ (ih h)

theorem alookup_eq_none {α β : Type} [DecidableEq α] {l : List (α × β)} {k : α} :
    alookup l k = none ↔ k ∉ l.map Prod.fst := by
  induction l with
  | nil => simp [alookup]
  | cons hd t ih =>
      obtain ⟨k'', v''⟩ := hd
      by_cases hk : k = k''
      · subst hk
        simp [alookup]
      · simp [alookup, if_neg hk, ih, hk]

theorem keys_aset {α β : Type} [DecidableEq α] {l : List (α × β)} {k : α} {a : β} (v : β)
    (h : alookup l k = some a) : (aset l k v).map Prod.fst = l.map Prod.fst := by
  induction l with
  | nil => simp [alookup] at h
  | cons hd t ih =>
      obtain ⟨k'', v''⟩ := hd
      by_cases hk : k = k''
      · subst hk
        simp [aset]
      · rw [alookup, if_neg hk] at h
        simp [aset, if_neg hk, ih h]

theorem sumBal_aset {l : List ((Name × Nat) × Account)} {k : Name × Nat} {a : Account}
    (v : Account) (c : Nat) (h : alookup l k = some a) :
    sumBal c (aset l k v) =
      sumBal c l + (if k.2 = c then v.balance.amount - a.balance.amount else 0) := by
  induction l with
  | nil => simp [alookup] at h
  | cons hd t ih =>
      by_cases hk : k = hd.1
      · rw [show hd = (hd.1, hd.2) from rfl] at h ⊢
        rw [alookup, if_pos hk] at h
        cases h
        rw [aset, if_pos hk, hk]
        by_cases hc : hd.1.2 = c <;> simp [sumBal, hc] <;> ring
      · rw [show hd = (hd.1, hd.2) from rfl] at h ⊢
        rw [alookup, if_neg hk] at h
        rw [aset, if_neg hk]
        by_cases hc : hd.1.2 = c <;> simp [sumBal, hc, ih h] <;> ring

theorem sumBal_nonneg {l : List ((Name × Nat) × Account)} (c : Nat)
    (h : ∀ p ∈ l, 0 ≤ p.2.balance.amount) : 0 ≤ sumBal c l := by
  induction l with
  | nil => simp [sumBal]
  | cons hd t ih =>
      have h1 := h hd (List.mem_cons_self _ _)
      have h2 : 0 ≤ sumBal c t := ih fun p hp => h p (List.mem_cons_of_mem _ hp)
      by_cases hc : hd.1.2 = c <;> simp [sumBal, hc] <;> omega

theorem alookup_le_sumBal {l : List ((Name × Nat) × Account)} {o : Name} {c : Nat}
    {a : Account} (hpos : ∀ p ∈ l, 0 ≤ p.2.balance.amount)
    (h : alookup l (o, c) = some a) : a.balance.amount ≤ sumBal c l := by
  induction l with
  | nil => simp [alookup] at h
  | cons hd t ih =>
      by_cases hk : (o, c) = hd.1
      · rw [show hd = (hd.1, hd.2) from rfl, alookup, if_pos hk] at h
        cases h
        have hc : hd.1.2 = c := by rw [← hk]
        have h2 : 0 ≤ sumBal c t :=
          sumBal_nonneg c fun p hp => hpos p (List.mem_cons_of_mem _ hp)
        simp [sumBal, hc]
        omega
      · rw [show hd = (hd.1, hd.2) from rfl, alookup, if_neg hk] at h
        have h1 := ih (fun p hp => hpos p (List.mem_cons_of_mem _ hp)) h
        have h0 := hpos hd (List.mem_cons_self _ _)
        by_cases hc : hd.1.2 = c <;> simp [sumBal, hc] <;> omega

theorem aerase_sublist {α β : Type} [DecidableEq α] (l : List (α × β)) (k : α) :
    (aerase l k).Sublist l := by
  induction l with
  | nil => simp [aerase]
  | cons hd t ih =>
      rw [show hd = (hd.1, hd.2) from rfl, aerase]
      by_cases hk : k = hd.1
      · rw [if_pos hk]
        exact List.sublist_cons_self _ _
      · rw [if_neg hk]
        exact ih.cons₂ _

theorem sumBal_aerase {l : List ((Name × Nat) × Account)} {k : Name × Nat} {a : Account}
    (c : Nat) (h : alookup l k = some a) :
    sumBal c (aerase l k) = sumBal c l - (if k.2 = c then a.balance.amount else 0) := by
  induction l with
  | nil => simp [alookup] at h
  | cons hd t ih =>
      by_cases hk : k = hd.1
      · rw [show hd = (hd.1, hd.2) from rfl] at h ⊢
        rw [alookup, if_pos hk] at h
        cases h
        rw [aerase, if_pos hk, hk]
        by_cases hc : hd.1.2 = c <;> simp [sumBal, hc]
      · rw [show hd = (hd.1, hd.2) from rfl] at h ⊢
        rw [alookup, if_neg hk] at h
        rw [aerase, if_neg hk]
        by_cases hc : hd.1.2 = c <;> simp [sumBal, hc, ih h] <;> ring

theorem alookup_aerase_ne {α β : Type} [DecidableEq α] {l : List (α × β)} {k k' : α}
    (hne : k' ≠ k) : alookup (aerase l k) k' = alookup l k' := by
  induction l with
  | nil => simp [aerase]
  | cons hd t ih =>
      rw [show hd = (hd.1, hd.2) from rfl, aerase]
      by_cases hk : k = hd.1
      · rw [if_pos hk, show (hd.1, hd.2) = hd from rfl]
        rw [show hd = (hd.1, hd.2) from rfl, alookup, if_neg (hk ▸ hne)]
      · rw [if_neg hk, alookup, alookup, ih]

theorem alookup_aerase_self {α β : Type} [DecidableEq α] {l : List (α × β)} {k : α}
    (hnd : (l.map Prod.fst).Nodup) : alookup (aerase l k) k = none := by
  induction l with
  | nil => simp [aerase, alookup]
  | cons hd t ih =>
      rw [show hd = (hd.1, hd.2) from rfl, aerase]
      rw [List.map_cons, List.nodup_cons] at hnd
      by_cases hk : k = hd.1
      · rw [if_pos hk]
        subst hk
        exact alookup_eq_none.2 hnd.1
      · rw [if_neg hk, alookup, if_neg hk]
        exact ih hnd.2

/-- Well-formedness of the accounts tables: nonnegative balances,
primary key equal to the stored asset's symbol code, and no duplicate
(owner scope, primary key) pairs. -/
def AccInv (l : List ((Name × Nat) × Account)) : Prop :=
  (∀ p ∈ l, 0 ≤ p.2.balance.amount ∧ p.1.2 = p.2.balance.sym.code) ∧
  (l.map Prod.fst).Nodup

/-- The ledger invariant: supply bounds, conservation of every symbol's
supply over its balance rows, and accounts well-formedness. -/
def Inv (s : State) : Prop :=
  (∀ code st, alookup s.stats code = some st →
      0 ≤ st.supply.amount ∧ st.supply.amount ≤ st.max_supply.amount ∧
      0 < st.max_supply.amount ∧ sumBal code s.accounts = st.supply.amount) ∧
  (∀ code, alookup s.stats code = none → sumBal code s.accounts = 0) ∧
  AccInv s.accounts

theorem inv_empty : Inv State.empty := by
  refine ⟨?_, ?_, ?_, ?_⟩ <;> simp [State.empty, alookup, sumBal, AccInv]

theorem add_balance_ok {owner : Name} {value : Asset} {payer : Name} {s s' : State}
    (h : add_balance owner value payer s = .ok s') (hpos : 0 ≤ value.amount)
    (hacc : AccInv s.accounts) :
    s'.stats = s.stats ∧ AccInv s'.accounts ∧
    ∀ c, sumBal c s'.accounts =
      sumBal c s.accounts + (if value.sym.code = c then value.amount else 0) := by
  unfold add_balance at h
  cases hl : alookup s.accounts (owner, value.sym.code) with
  | none =>
      simp only [hl] at h
      cases h
      refine ⟨rfl, ⟨?_, ?_⟩, ?_⟩
      · intro p hp
        rcases List.mem_cons.1 hp with h1 | h1
        · subst h1
          exact ⟨hpos, rfl⟩
        · exact hacc.1 p h1
      · rw [List.map_cons, List.nodup_cons]
        exact ⟨alookup_eq_none.1 hl, hacc.2⟩
      · intro c
        by_cases hc : value.sym.code = c <;> simp [sumBal, hc]
        omega
  | some a =>
      simp only [hl] at h
      split at h
      · exact Except.noConfusion h
      · rename_i hsym
        split at h
        · exact Except.noConfusion h
        · rename_i hover
          cases h
          rw [not_not] at hsym
          refine ⟨rfl, ⟨?_, ?_⟩, ?_⟩
          · intro p hp
            rcases mem_aset hp with h1 | h1
            · subst h1
              have ha := hacc.1 _ (alookup_mem hl)
              simp only [Prod.snd] at ha
              constructor
              · simp
                omega
              · simp
                exact ha.2
            · exact hacc.1 p h1
          · rw [keys_aset _ hl]
            exact hacc.2
          · intro c
            rw [sumBal_aset _ c hl]
            by_cases hc : value.sym.code = c
            · simp [hc]
            · simp [hc]

theorem sub_balance_ok {owner : Name} {value : Asset} {s s' : State}
    (h : sub_balance owner value s = .ok s') (hacc : AccInv s.accounts) :
    s'.stats = s.stats ∧ AccInv s'.accounts ∧
    (∀ c, sumBal c s'.accounts =
      sumBal c s.accounts - (if value.sym.code = c then value.amount else 0)) ∧
    value.amount ≤ sumBal value.sym.code s.accounts := by
  unfold sub_balance at h
  cases hl : alookup s.accounts (owner, value.sym.code) with
  | none =>
      simp only [hl] at h
      exact Except.noConfusion h
  | some a =>
      simp only [hl] at h
      split at h
      · exact Except.noConfusion h
      · rename_i hsym
        split at h
        · exact Except.noConfusion h
        · rename_i hbal
          cases h
          rw [not_not] at hsym
          rw [not_lt] at hbal
          have hle : a.balance.amount ≤ sumBal value.sym.code s.accounts :=
            alookup_le_sumBal (fun p hp => (hacc.1 p hp).1) hl
          refine ⟨rfl, ⟨?_, ?_⟩, ?_, by omega⟩
          · intro p hp
            rcases mem_aset hp with h1 | h1
            · subst h1
              have ha := hacc.1 _ (alookup_mem hl)
              simp only [Prod.snd] at ha
              constructor
              · simp
                omega
              · simp
                exact ha.2
            · exact hacc.1 p h1
          · rw [keys_aset _ hl]
            exact hacc.2
          · intro c
            rw [sumBal_aset _ c hl]
            by_cases hc : value.sym.code = c
            · simp [hc]
              ring
            · simp [hc]

theorem inv_create {issuer : Name} {m : Asset} {s s' : State}
    (hinv : Inv s) (h : create issuer m s = .ok s') : Inv s' := by
  obtain ⟨h1, h2, h3⟩ := hinv
  unfold create at h
  split at h
  · exact Except.noConfusion h
  rename_i hvalid
  split at h
  · exact Except.noConfusion h
  rename_i hdup
  split at h
  · exact Except.noConfusion h
  rename_i hzero
  split at h
  · exact Except.noConfusion h
  rename_i hbig
  cases h
  have hnone : alookup s.stats m.sym.code = none := by
    cases hl : alookup s.stats m.sym.code with
    | none => rfl
    | some st => rw [hl] at hdup; simp at hdup
  refine ⟨?_, ?_, h3⟩
  · intro code st hlk
    rw [alookup] at hlk
    by_cases hcc : code = m.sym.code
    · rw [if_pos hcc] at hlk
      cases hlk
      subst hcc
      refine ⟨le_refl 0, by simp; omega, by simp; omega, ?_⟩
      simpa using h2 _ hnone
    · rw [if_neg hcc] at hlk
      exact h1 code st hlk
  · intro code hlk
    rw [alookup] at hlk
    by_cases hcc : code = m.sym.code
    · rw [if_pos hcc] at hlk
      exact Option.noConfusion hlk
    · rw [if_neg hcc] at hlk
      exact h2 code hlk

theorem inv_issue {toA : Name} {q : Asset} {memo : String} {s s' : State}
    (hinv : Inv s) (h : issue toA q memo s = .ok s') : Inv s' := by
  obtain ⟨h1, h2, h3⟩ := hinv
  unfold issue at h
  cases hst : alookup s.stats q.sym.code with
  | none =>
      simp only [hst] at h
      exact Except.noConfusion h
  | some st =>
      simp only [hst] at h
      split at h
      · exact Except.noConfusion h
      rename_i hauth
      split at h
      · exact Except.noConfusion h
      rename_i hmemo
      split at h
      · exact Except.noConfusion h
      rename_i hqpos
      split at h
      · exact Except.noConfusion h
      rename_i hqsym
      split at h
      · exact Except.noConfusion h
      rename_i hceil
      have hq : (0:Int) ≤ q.amount := by omega
      obtain ⟨hstats, hacc', hsum⟩ := add_balance_ok h hq h3
      obtain ⟨hs0, hs1, hs2, hs3⟩ := h1 _ _ hst
      refine ⟨?_, ?_, hacc'⟩
      · intro code stx hlk
        rw [hstats, alookup_aset] at hlk
        by_cases hcc : code = q.sym.code
        · rw [if_pos hcc] at hlk
          cases hlk
          subst hcc
          refine ⟨by simp; omega, by simp; omega, by simp; omega, ?_⟩
          rw [hsum]
          simp
          omega
        · rw [if_neg hcc] at hlk
          obtain ⟨g0, g1, g2, g3⟩ := h1 code stx hlk
          refine ⟨g0, g1, g2, ?_⟩
          have hcc' : ¬(q.sym.code = code) := fun hh => hcc hh.symm
          rw [hsum, if_neg hcc']
          simpa using g3
      · intro code hlk
        rw [hstats, alookup_aset] at hlk
        by_cases hcc : code = q.sym.code
        · rw [if_pos hcc] at hlk
          exact Option.noConfusion hlk
        · rw [if_neg hcc] at hlk
          have hcc' : ¬(q.sym.code = code) := fun hh => hcc hh.symm
          rw [hsum, if_neg hcc']
          simpa using h2 code hlk

theorem inv_retire {q : Asset} {memo : String} {s s' : State}
    (hinv : Inv s) (h : retire q memo s = .ok s') : Inv s' := by
  obtain ⟨h1, h2, h3⟩ := hinv
  unfold retire at h
  cases hst : alookup s.stats q.sym.code with
  | none =>
      simp only [hst] at h
      exact Except.noConfusion h
  | some st =>
      simp only [hst] at h
      split at h
      · exact Except.noConfusion h
      rename_i hqpos
      split at h
      · exact Except.noConfusion h
      rename_i hqsym
      obtain ⟨hstats, hacc', hsum, hbound⟩ := sub_balance_ok h h3
      obtain ⟨hs0, hs1, hs2, hs3⟩ := h1 _ _ hst
      have hbound' : q.amount ≤ sumBal q.sym.code s.accounts := hbound
      refine ⟨?_, ?_, hacc'⟩
      · intro code stx hlk
        rw [hstats, alookup_aset] at hlk
        by_cases hcc : code = q.sym.code
        · rw [if_pos hcc] at hlk
          cases hlk
          subst hcc
          refine ⟨by simp; omega, by simp; omega, by simp; omega, ?_⟩
          rw [hsum]
          simp
          omega
        · rw [if_neg hcc] at hlk
          obtain ⟨g0, g1, g2, g3⟩ := h1 code stx hlk
          refine ⟨g0, g1, g2, ?_⟩
          have hcc' : ¬(q.sym.code = code) := fun hh => hcc hh.symm
          rw [hsum, if_neg hcc']
          simpa using g3
      · intro code hlk
        rw [hstats, alookup_aset] at hlk
        by_cases hcc : code = q.sym.code
        · rw [if_pos hcc] at hlk
          exact Option.noConfusion hlk
        · rw [if_neg hcc] at hlk
          have hcc' : ¬(q.sym.code = code) := fun hh => hcc hh.symm
          rw [hsum, if_neg hcc']
          simpa using h2 code hlk

theorem transfer_decomp {fr toA : Name} {q : Asset} {memo : String} {s s' : State}
    (h : transfer fr toA q memo s = .ok s') :
    0 < q.amount ∧ ∃ s1, sub_balance fr q s = .ok s1 ∧ add_balance toA q fr s1 = .ok s' := by
  unfold transfer at h
  split at h
  · exact Except.noConfusion h
  rename_i hne
  cases hst : alookup s.stats q.sym.code with
  | none =>
      simp only [hst] at h
      exact Except.noConfusion h
  | some st =>
      simp only [hst] at h
      split at h
      · exact Except.noConfusion h
      rename_i hmemo
      split at h
      · exact Except.noConfusion h
      rename_i hqpos
      split at h
      · exact Except.noConfusion h
      rename_i hqsym
      refine ⟨by omega, ?_⟩
      cases hsub : sub_balance fr q s with
      | error e =>
          simp only [hsub] at h
          exact Except.noConfusion h
      | ok s1 =>
          simp only [hsub] at h
          exact ⟨s1, rfl, h⟩

theorem inv_transfer {fr toA : Name} {q : Asset} {memo : String} {s s' : State}
    (hinv : Inv s) (h : transfer fr toA q memo s = .ok s') : Inv s' := by
  obtain ⟨h1, h2, h3⟩ := hinv
  obtain ⟨hq, s1, hsub, hadd⟩ := transfer_decomp h
  obtain ⟨hst1, hacc1, hsum1, hb1⟩ := sub_balance_ok hsub h3
  obtain ⟨hst2, hacc2, hsum2⟩ := add_balance_ok hadd (le_of_lt hq) hacc1
  have hsteq : s'.stats = s.stats := by rw [hst2, hst1]
  have hsums : ∀ c, sumBal c s'.accounts = sumBal c s.accounts := by
    intro c
    rw [hsum2, hsum1]
    ring
  refine ⟨?_, ?_, hacc2⟩
  · intro code st hlk
    rw [hsteq] at hlk
    obtain ⟨g0, g1, g2, g3⟩ := h1 code st hlk
    exact ⟨g0, g1, g2, by rw [hsums]; exact g3⟩
  · intro code hlk
    rw [hsteq] at hlk
    rw [hsums]
    exact h2 code hlk

theorem inv_open {owner : Name} {sym : Symbol} {payer : Name} {s s' : State}
    (hinv : Inv s) (h : openAct owner sym payer s = .ok s') : Inv s' := by
  obtain ⟨h1, h2, h3⟩ := hinv
  unfold openAct at h
  cases hst : alookup s.stats sym.code with
  | none =>
      simp only [hst] at h
      exact Except.noConfusion h
  | some st =>
      simp only [hst] at h
      cases hac : alookup s.accounts (owner, sym.code) with
      | some a =>
          simp only [hac] at h
          cases h
          exact ⟨h1, h2, h3⟩
      | none =>
          simp only [hac] at h
          cases h
          refine ⟨?_, ?_, ?_, ?_⟩
          · intro code stx hlk
            obtain ⟨g0, g1, g2, g3⟩ := h1 code stx hlk
            refine ⟨g0, g1, g2, ?_⟩
            simpa [sumBal] using g3
          · intro code hlk
            simpa [sumBal] using h2 code hlk
          · intro p hp
            rcases List.mem_cons.1 hp with hp1 | hp1
            · subst hp1
              exact ⟨le_refl 0, rfl⟩
            · exact h3.1 p hp1
          · rw [List.map_cons, List.nodup_cons]
            exact ⟨alookup_eq_none.1 hac, h3.2⟩

theorem inv_close {owner : Name} {sym : Symbol} {s s' : State}
    (hinv : Inv s) (h : closeAct owner sym s = .ok s') : Inv s' := by
  obtain ⟨h1, h2, h3⟩ := hinv
  unfold closeAct at h
  cases hac : alookup s.accounts (owner, sym.code) with
  | none =>
      simp only [hac] at h
      cases h
      exact ⟨h1, h2, h3⟩
  | some a =>
      simp only [hac] at h
      split at h
      · exact Except.noConfusion h
      rename_i hzero
      rw [not_not] at hzero
      cases h
      refine ⟨?_, ?_, ?_, ?_⟩
      · intro code stx hlk
        obtain ⟨g0, g1, g2, g3⟩ := h1 code stx hlk
        refine ⟨g0, g1, g2, ?_⟩
        rw [sumBal_aerase code hac]
        simp [hzero]
        exact g3
      · intro code hlk
        rw [sumBal_aerase code hac]
        simp [hzero]
        exact h2 code hlk
      · intro p hp
        exact h3.1 p ((aerase_sublist _ _).subset hp)
      · exact List.Nodup.sublist ((aerase_sublist _ _).map _) h3.2

theorem inv_exec {op : Op} {s s' : State} (hinv : Inv s) (h : exec op s = .ok s') :
    Inv s' := by
  simp only [exec] at h
  cases op with
  | createOp issuer m => exact inv_create hinv h
  | issueOp toA q memo => exact inv_issue hinv h
  | retireOp q memo => exact inv_retire hinv h
  | transferOp fr toA q memo => exact inv_transfer hinv h
  | openOp owner sym payer => exact inv_open hinv h
  | closeOp owner sym => exact inv_close hinv h

theorem inv_applyOp (op : Op) {s : State} (hinv : Inv s) : Inv (applyOp op s) := by
  unfold applyOp
  cases h : exec op s with
  | ok s' => exact inv_exec hinv h
  | error e => exact hinv

theorem inv_reachable {s : State} (h : Reachable s) : Inv s := by
  induction h with
  | empty => exact inv_empty
  | step op _ ih => exact inv_applyOp op ih

theorem add_balance_stats {owner : Name} {value : Asset} {payer : Name} {s s' : State}
    (h : add_balance owner value payer s = .ok s') : s'.stats = s.stats := by
  unfold add_balance at h
  cases hl : alookup s.accounts (owner, value.sym.code) with
  | none =>
      simp only [hl] at h
      cases h
      rfl
  | some a =>
      simp only [hl] at h
      split at h
      · exact Except.noConfusion h
      split at h
      · exact Except.noConfusion h
      cases h
      rfl

theorem sub_balance_stats {owner : Name} {value : Asset} {s s' : State}
    (h : sub_balance owner value s = .ok s') : s'.stats = s.stats := by
  unfold sub_balance at h
  cases hl : alookup s.accounts (owner, value.sym.code) with
  | none =>
      simp only [hl] at h
      exact Except.noConfusion h
  | some a =>
      simp only [hl] at h
      split at h
      · exact Except.noConfusion h
      split at h
      · exact Except.noConfusion h
      cases h
      rfl

theorem max_supply_immutable (op : Op) (s : State) (code : Nat)
    (st st' : CurrencyStats) (h : alookup s.stats code = some st)
    (h' : alookup (applyOp op s).stats code = some st') :
    st'.max_supply = st.max_supply ∧ st'.issuer = st.issuer := by
  unfold applyOp at h'
  cases hex : exec op s with
  | error e =>
      rw [hex] at h'
      rw [h] at h'
      cases h'
      exact ⟨rfl, rfl⟩
  | ok s2 =>
      simp only [hex] at h'
      cases op with
      | createOp issuer m =>
          simp only [exec] at hex
          unfold create at hex
          split at hex
          · exact Except.noConfusion hex
          split at hex
          · exact Except.noConfusion hex
          rename_i hdup
          split at hex
          · exact Except.noConfusion hex
          split at hex
          · exact Except.noConfusion hex
          cases hex
          rw [alookup] at h'
          by_cases hcc : code = m.sym.code
          · rw [← hcc, h] at hdup
            simp at hdup
          · rw [if_neg hcc, h] at h'
            cases h'
            exact ⟨rfl, rfl⟩
      | issueOp toA q memo =>
          simp only [exec] at hex
          unfold issue at hex
          cases hst : alookup s.stats q.sym.code with
          | none =>
              simp only [hst] at hex
              exact Except.noConfusion hex
          | some stL =>
              simp only [hst] at hex
              split at hex
              · exact Except.noConfusion hex
              split at hex
              · exact Except.noConfusion hex
              split at hex
              · exact Except.noConfusion hex
              split at hex
              · exact Except.noConfusion hex
              split at hex
              · exact Except.noConfusion hex
              rw [add_balance_stats hex] at h'
              rw [alookup_aset] at h'
              by_cases hcc : code = q.sym.code
              · rw [if_pos hcc] at h'
                cases h'
                rw [hcc, hst] at h
                cases h
                exact ⟨rfl, rfl⟩
              · rw [if_neg hcc, h] at h'
                cases h'
                exact ⟨rfl, rfl⟩
      | retireOp q memo =>
          simp only [exec] at hex
          unfold retire at hex
          cases hst : alookup s.stats q.sym.code with
          | none =>
              simp only [hst] at hex
              exact Except.noConfusion hex
          | some stL =>
              simp only [hst] at hex
              split at hex
              · exact Except.noConfusion hex
              split at hex
              · exact Except.noConfusion hex
              rw [sub_balance_stats hex] at h'
              rw [alookup_aset] at h'
              by_cases hcc : code = q.sym.code
              · rw [if_pos hcc] at h'
                cases h'
                rw [hcc, hst] at h
                cases h
                exact ⟨rfl, rfl⟩
              · rw [if_neg hcc, h] at h'
                cases h'
                exact ⟨rfl, rfl⟩
      | transferOp fr toA q memo =>
          simp only [exec] at hex
          obtain ⟨_, s1, hsub, hadd⟩ := transfer_decomp hex
          rw [add_balance_stats hadd, sub_balance_stats hsub, h] at h'
          cases h'
          exact ⟨rfl, rfl⟩
      | openOp owner sym payer =>
          simp only [exec] at hex
          unfold openAct at hex
          cases hst : alookup s.stats sym.code with
          | none =>
              simp only [hst] at hex
              exact Except.noConfusion hex
          | some stL =>
              simp only [hst] at hex
              cases hac : alookup s.accounts (owner, sym.code) with
              | some a =>
                  simp only [hac] at hex
                  cases hex
                  rw [h] at h'
                  cases h'
                  exact ⟨rfl, rfl⟩
              | none =>
                  simp only [hac] at hex
                  cases hex
                  rw [h] at h'
                  cases h'
                  exact ⟨rfl, rfl⟩
      | closeOp owner sym =>
          simp only [exec] at hex
          unfold closeAct at hex
          cases hac : alookup s.accounts (owner, sym.code) with
          | none =>
              simp only [hac] at hex
              cases hex
              rw [h] at h'
              cases h'
              exact ⟨rfl, rfl⟩
          | some a =>
              simp only [hac] at hex
              split at hex
              · exact Except.noConfusion hex
              cases hex
              rw [h] at h'
              cases h'
              exact ⟨rfl, rfl⟩

/-- C1: Conservation law: in every state reachable from the empty ledger
by create/issue/retire/transfer/open/close operations (so after each
operation of any such sequence), for every symbol whose TokenStats row
exists, the sum of the balance fields over all AccountBalance rows of
that symbol equals the supply field of that row. -/
theorem conservation_law {s : State} (hs : Reachable s) (code : Nat)
    (st : CurrencyStats) (h : alookup s.stats code = some st) :
    sumBal code s.accounts = st.supply.amount :=
  ((inv_reachable hs).1 code st h).2.2.2

theorem conservation_law_witness :
    sumBal 5 (applyOp (Op.issueOp 1 ⟨100, ⟨5, 2⟩⟩ "m")
      (applyOp (Op.createOp 1 ⟨1000, ⟨5, 2⟩⟩) State.empty)).accounts =
      (⟨⟨100, ⟨5, 2⟩⟩, ⟨1000, ⟨5, 2⟩⟩, 1⟩ : CurrencyStats).supply.amount :=
  conservation_law
    (Reachable.step (Op.issueOp 1 ⟨100, ⟨5, 2⟩⟩ "m")
      (Reachable.step (Op.createOp 1 ⟨1000, ⟨5, 2⟩⟩) Reachable.empty))
    5 ⟨⟨100, ⟨5, 2⟩⟩, ⟨1000, ⟨5, 2⟩⟩, 1⟩ (by decide)

/-- C2: Supply ceiling and immutability: in every reachable state every
TokenStats row satisfies `0 ≤ supply ≤ max_supply` and `0 < max_supply`
(so in particular no sequence of issues pushes supply past max_supply),
and no operation applied to a reachable state changes the max_supply
field of an existing row. -/
theorem supply_ceiling_and_max_immutable {s : State} (hs : Reachable s) :
    (∀ code st, alookup s.stats code = some st →
        0 ≤ st.supply.amount ∧ st.supply.amount ≤ st.max_supply.amount ∧
        0 < st.max_supply.amount) ∧
    (∀ op code st st', alookup s.stats code = some st →
        alookup (applyOp op s).stats code = some st' →
        st'.max_supply = st.max_supply) := by
  obtain ⟨h1, _, _⟩ := inv_reachable hs
  refine ⟨?_, ?_⟩
  · intro code st h
    obtain ⟨a, b, c, _⟩ := h1 code st h
    exact ⟨a, b, c⟩
  · intro op code st st' h h'
    exact (max_supply_immutable op s code st st' h h').1

theorem supply_ceiling_and_max_immutable_witness :
    ((0:Int) ≤ (⟨⟨0, ⟨5, 2⟩⟩, ⟨1000, ⟨5, 2⟩⟩, 1⟩ : CurrencyStats).supply.amount ∧
     (⟨⟨0, ⟨5, 2⟩⟩, ⟨1000, ⟨5, 2⟩⟩, 1⟩ : CurrencyStats).supply.amount ≤
       (⟨⟨0, ⟨5, 2⟩⟩, ⟨1000, ⟨5, 2⟩⟩, 1⟩ : CurrencyStats).max_supply.amount ∧
     (0:Int) < (⟨⟨0, ⟨5, 2⟩⟩, ⟨1000, ⟨5, 2⟩⟩, 1⟩ : CurrencyStats).max_supply.amount) ∧
    (⟨⟨100, ⟨5, 2⟩⟩, ⟨1000, ⟨5, 2⟩⟩, 1⟩ : CurrencyStats).max_supply =
      (⟨⟨0, ⟨5, 2⟩⟩, ⟨1000, ⟨5, 2⟩⟩, 1⟩ : CurrencyStats).max_supply := by
  have h := supply_ceiling_and_max_immutable
    (Reachable.step (Op.createOp 1 ⟨1000, ⟨5, 2⟩⟩) Reachable.empty)
  exact ⟨h.1 5 ⟨⟨0, ⟨5, 2⟩⟩, ⟨1000, ⟨5, 2⟩⟩, 1⟩ (by decide),
    h.2 (Op.issueOp 1 ⟨100, ⟨5, 2⟩⟩ "m") 5 ⟨⟨0, ⟨5, 2⟩⟩, ⟨1000, ⟨5, 2⟩⟩, 1⟩
      ⟨⟨100, ⟨5, 2⟩⟩, ⟨1000, ⟨5, 2⟩⟩, 1⟩ (by decide) (by decide)⟩

/-- C3: Atomicity on failure: any operation of the action surface that
returns an error leaves the transactional state identical to the initial
state; in particular a transfer whose credit step (add_balance) fails
after a successful debit step (sub_balance) does not succeed, and its
transactional result is the unchanged initial state (the debit is not
applied). -/
theorem atomic_on_failure :
    (∀ op s e, exec op s = .error e → applyOp op s = s) ∧
    (∀ fr toA q memo s s1 e, sub_balance fr q s = .ok s1 →
        add_balance toA q fr s1 = .error e →
        (∀ s2, transfer fr toA q memo s ≠ Except.ok s2) ∧
        applyOp (Op.transferOp fr toA q memo) s = s) := by
  constructor
  · intro op s e h
    unfold applyOp
    rw [h]
  · intro fr toA q memo s s1 e hsub hadd
    have hnotok : ∀ s2, transfer fr toA q memo s ≠ Except.ok s2 := by
      intro s2 hok
      obtain ⟨_, s1', hsub', hadd'⟩ := transfer_decomp hok
      rw [hsub] at hsub'
      cases hsub'
      rw [hadd] at hadd'
      exact Except.noConfusion hadd'
    refine ⟨hnotok, ?_⟩
    unfold applyOp
    cases hex : exec (Op.transferOp fr toA q memo) s with
    | ok s2 =>
        simp only [exec] at hex
        exact absurd hex (hnotok s2)
    | error e2 => rfl

theorem atomic_on_failure_witness :
    applyOp (Op.transferOp 1 2 ⟨5, ⟨5, 2⟩⟩ "m")
      ⟨[(5, ⟨⟨10, ⟨5, 2⟩⟩, ⟨1000, ⟨5, 2⟩⟩, 1⟩)],
       [((1, 5), ⟨⟨10, ⟨5, 2⟩⟩⟩), ((2, 5), ⟨⟨0, ⟨5, 3⟩⟩⟩)]⟩ =
      ⟨[(5, ⟨⟨10, ⟨5, 2⟩⟩, ⟨1000, ⟨5, 2⟩⟩, 1⟩)],
       [((1, 5), ⟨⟨10, ⟨5, 2⟩⟩⟩), ((2, 5), ⟨⟨0, ⟨5, 3⟩⟩⟩)]⟩ :=
  (atomic_on_failure.2 1 2 ⟨5, ⟨5, 2⟩⟩ "m"
    ⟨[(5, ⟨⟨10, ⟨5, 2⟩⟩, ⟨1000, ⟨5, 2⟩⟩, 1⟩)],
     [((1, 5), ⟨⟨10, ⟨5, 2⟩⟩⟩), ((2, 5), ⟨⟨0, ⟨5, 3⟩⟩⟩)]⟩
    ⟨[(5, ⟨⟨10, ⟨5, 2⟩⟩, ⟨1000, ⟨5, 2⟩⟩, 1⟩)],
     [((1, 5), ⟨⟨5, ⟨5, 2⟩⟩⟩), ((2, 5), ⟨⟨0, ⟨5, 3⟩⟩⟩)]⟩
    Err.SymbolMismatch (by rfl) (by rfl)).2

/-- C4: create(issuer, maximum_supply) succeeds exactly when the symbol
is valid, no TokenStats row exists for its code, the amount is positive
and at most `2^62 - 1`; on success it inserts a TokenStats row with zero
supply of the same symbol, max_supply = maximum_supply and the given
issuer, touching no balances; a create with amount 0 fails with
InvalidSupply and a create on an existing symbol code fails with
DuplicateSymbol. -/
theorem create_spec (issuer : Name) (m : Asset) (s : State) :
    ((∃ s', create issuer m s = .ok s') ↔
      (m.sym.isValid = true ∧ alookup s.stats m.sym.code = none ∧
       0 < m.amount ∧ m.amount ≤ maxAmount)) ∧
    (∀ s', create issuer m s = .ok s' →
       alookup s'.stats m.sym.code = some ⟨⟨0, m.sym⟩, m, issuer⟩ ∧
       s'.accounts = s.accounts) ∧
    (m.sym.isValid = true → alookup s.stats m.sym.code = none → m.amount = 0 →
       create issuer m s = .error .InvalidSupply) ∧
    (m.sym.isValid = true → (∃ st, alookup s.stats m.sym.code = some st) →
       create issuer m s = .error .DuplicateSymbol) := by
  refine ⟨⟨?_, ?_⟩, ?_, ?_, ?_⟩
  · rintro ⟨s', h⟩
    unfold create at h
    split at h
    · exact Except.noConfusion h
    rename_i hv
    split at h
    · exact Except.noConfusion h
    rename_i hd
    split at h
    · exact Except.noConfusion h
    rename_i hz
    split at h
    · exact Except.noConfusion h
    rename_i hb
    refine ⟨by simpa using hv, Option.not_isSome_iff_eq_none.mp hd, by omega, by omega⟩
  · rintro ⟨hv, hn, hp, hb⟩
    refine ⟨{ s with stats := (m.sym.code, ⟨⟨0, m.sym⟩, m, issuer⟩) :: s.stats }, ?_⟩
    unfold create
    rw [if_neg (by simp [hv]), if_neg (by simp [hn]), if_neg (by omega),
      if_neg (by omega)]
  · intro s' h
    unfold create at h
    split at h
    · exact Except.noConfusion h
    split at h
    · exact Except.noConfusion h
    split at h
    · exact Except.noConfusion h
    split at h
    · exact Except.noConfusion h
    cases h
    constructor
    · rw [alookup, if_pos rfl]
    · rfl
  · intro hv hn hz
    unfold create
    rw [if_neg (by simp [hv]), if_neg (by simp [hn]), if_pos (by omega)]
  · intro hv hst
    obtain ⟨st, hst⟩ := hst
    unfold create
    rw [if_neg (by simp [hv]), if_pos (by simp [hst])]

theorem create_spec_witness :
    create 1 ⟨0, ⟨5, 2⟩⟩ State.empty = .error .InvalidSupply ∧
    create 1 ⟨1000, ⟨5, 2⟩⟩ (applyOp (Op.createOp 1 ⟨1000, ⟨5, 2⟩⟩) State.empty) =
      .error .DuplicateSymbol := by
  constructor
  · exact (create_spec 1 ⟨0, ⟨5, 2⟩⟩ State.empty).2.2.1 (by decide) (by decide) (by decide)
  · exact (create_spec 1 ⟨1000, ⟨5, 2⟩⟩
      (applyOp (Op.createOp 1 ⟨1000, ⟨5, 2⟩⟩) State.empty)).2.2.2 (by decide)
      ⟨⟨⟨0, ⟨5, 2⟩⟩, ⟨1000, ⟨5, 2⟩⟩, 1⟩, by decide⟩

theorem add_balance_balAmt {owner : Name} {value : Asset} {payer : Name} {s s' : State}
    (h : add_balance owner value payer s = .ok s') :
    balAmt s' owner value.sym.code = balAmt s owner value.sym.code + value.amount := by
  unfold add_balance at h
  cases hl : alookup s.accounts (owner, value.sym.code) with
  | none =>
      simp only [hl] at h
      cases h
      unfold balAmt
      simp only [hl]
      rw [alookup, if_pos rfl]
      simp
  | some a =>
      simp only [hl] at h
      split at h
      · exact Except.noConfusion h
      split at h
      · exact Except.noConfusion h
      cases h
      unfold balAmt
      rw [hl, alookup_aset, if_pos rfl]

/-- C5: issue(to, quantity, memo): with an existing TokenStats row for
quantity's symbol code, issue succeeds only when `to` equals the stored
issuer, the amount is positive, the symbol matches the stored one in
code and precision, and the amount fits under the remaining ceiling; on
success the supply rises by exactly the amount and the issuer's balance
rises by exactly the amount (the row being created when absent). -/
theorem issue_spec (toA : Name) (q : Asset) (memo : String) (s : State)
    (st : CurrencyStats) (h : alookup s.stats q.sym.code = some st) :
    ∀ s', issue toA q memo s = .ok s' →
      (toA = st.issuer ∧ 0 < q.amount ∧ q.sym = st.supply.sym ∧
       q.amount ≤ st.max_supply.amount - st.supply.amount) ∧
      alookup s'.stats q.sym.code =
        some ⟨⟨st.supply.amount + q.amount, st.supply.sym⟩, st.max_supply, st.issuer⟩ ∧
      balAmt s' st.issuer q.sym.code = balAmt s st.issuer q.sym.code + q.amount := by
  intro s' hok
  unfold issue at hok
  simp only [h] at hok
  split at hok
  · exact Except.noConfusion hok
  rename_i hauth
  split at hok
  · exact Except.noConfusion hok
  rename_i hmemo
  split at hok
  · exact Except.noConfusion hok
  rename_i hqpos
  split at hok
  · exact Except.noConfusion hok
  rename_i hqsym
  split at hok
  · exact Except.noConfusion hok
  rename_i hceil
  rw [not_not] at hauth hqsym
  refine ⟨⟨hauth, by omega, hqsym, by omega⟩, ?_, ?_⟩
  · rw [add_balance_stats hok]
    rw [alookup_aset, if_pos rfl]
  · have hb := add_balance_balAmt hok
    have hb2 : balAmt { s with stats := (aset s.stats q.sym.code
        ⟨⟨st.supply.amount + q.amount, st.supply.sym⟩, st.max_supply, st.issuer⟩) }
        st.issuer q.sym.code = balAmt s st.issuer q.sym.code := rfl
    rw [hb2] at hb
    exact hb

theorem issue_spec_witness :
    (1 = (1:Name) ∧ (0:Int) < 100 ∧ (⟨5, 2⟩ : Symbol) = ⟨5, 2⟩ ∧
     (100:Int) ≤ 1000 - 0) ∧
    alookup (applyOp (Op.issueOp 1 ⟨100, ⟨5, 2⟩⟩ "m")
        (applyOp (Op.createOp 1 ⟨1000, ⟨5, 2⟩⟩) State.empty)).stats 5 =
      some ⟨⟨0 + 100, ⟨5, 2⟩⟩, ⟨1000, ⟨5, 2⟩⟩, 1⟩ ∧
    balAmt (applyOp (Op.issueOp 1 ⟨100, ⟨5, 2⟩⟩ "m")
        (applyOp (Op.createOp 1 ⟨1000, ⟨5, 2⟩⟩) State.empty)) 1 5 =
      balAmt (applyOp (Op.createOp 1 ⟨1000, ⟨5, 2⟩⟩) State.empty) 1 5 + 100 :=
  issue_spec 1 ⟨100, ⟨5, 2⟩⟩ "m"
    (applyOp (Op.createOp 1 ⟨1000, ⟨5, 2⟩⟩) State.empty)
    ⟨⟨0, ⟨5, 2⟩⟩, ⟨1000, ⟨5, 2⟩⟩, 1⟩ (by decide)
    (applyOp (Op.issueOp 1 ⟨100, ⟨5, 2⟩⟩ "m")
      (applyOp (Op.createOp 1 ⟨1000, ⟨5, 2⟩⟩) State.empty)) (by rfl)

/-- C6: retire(quantity, memo): with an existing TokenStats row for the
symbol (the issuer-authority check being the host's), a positive amount
of the stored symbol and an issuer balance row of that symbol: when the
balance covers the amount, retire succeeds, the supply drops by the
amount and the issuer's balance drops by the amount; when the balance is
smaller, retire fails with InsufficientBalance and the transactional
state is unchanged. -/
theorem retire_spec (q : Asset) (memo : String) (s : State) (st : CurrencyStats)
    (a : Account) (h : alookup s.stats q.sym.code = some st) (hq : 0 < q.amount)
    (hsym : q.sym = st.supply.sym)
    (hrow : alookup s.accounts (st.issuer, q.sym.code) = some a)
    (hasym : a.balance.sym = q.sym) :
    (q.amount ≤ a.balance.amount →
       ∃ s', retire q memo s = .ok s' ∧
         alookup s'.stats q.sym.code =
           some ⟨⟨st.supply.amount - q.amount, st.supply.sym⟩, st.max_supply, st.issuer⟩ ∧
         alookup s'.accounts (st.issuer, q.sym.code) =
           some ⟨⟨a.balance.amount - q.amount, a.balance.sym⟩⟩) ∧
    (a.balance.amount < q.amount →
       retire q memo s = .error .InsufficientBalance ∧
       applyOp (Op.retireOp q memo) s = s) := by
  have hret : retire q memo s =
      sub_balance st.issuer q
        { s with stats := (aset s.stats q.sym.code
            ⟨⟨st.supply.amount - q.amount, st.supply.sym⟩, st.max_supply, st.issuer⟩) } := by
    unfold retire
    simp only [h]
    rw [if_neg (by omega), if_neg (by simp [hsym])]
  have hrow' : alookup
      ({ s with stats := (aset s.stats q.sym.code
          ⟨⟨st.supply.amount - q.amount, st.supply.sym⟩, st.max_supply, st.issuer⟩) } :
        State).accounts (st.issuer, q.sym.code) = some a := hrow
  constructor
  · intro hle
    refine ⟨{ s with
        stats := (aset s.stats q.sym.code
          ⟨⟨st.supply.amount - q.amount, st.supply.sym⟩, st.max_supply, st.issuer⟩),
        accounts := (aset s.accounts (st.issuer, q.sym.code)
          ⟨⟨a.balance.amount - q.amount, a.balance.sym⟩⟩) }, ?_, ?_, ?_⟩
    · rw [hret]
      unfold sub_balance
      simp only [hrow']
      rw [if_neg (by simp [hasym]), if_neg (by omega)]
    · rw [alookup_aset, if_pos rfl]
    · rw [alookup_aset, if_pos rfl]
  · intro hlt
    have herr : retire q memo s = .error .InsufficientBalance := by
      rw [hret]
      unfold sub_balance
      simp only [hrow']
      rw [if_neg (by simp [hasym]), if_pos (by omega)]
    refine ⟨herr, ?_⟩
    unfold applyOp
    simp only [exec]
    rw [herr]

theorem retire_spec_witness :
    ∃ s', retire ⟨60, ⟨5, 2⟩⟩ "m"
        ⟨[(5, ⟨⟨100, ⟨5, 2⟩⟩, ⟨1000, ⟨5, 2⟩⟩, 1⟩)],
         [((1, 5), ⟨⟨100, ⟨5, 2⟩⟩⟩)]⟩ = .ok s' ∧
      alookup s'.stats 5 = some ⟨⟨100 - 60, ⟨5, 2⟩⟩, ⟨1000, ⟨5, 2⟩⟩, 1⟩ ∧
      alookup s'.accounts (1, 5) = some ⟨⟨100 - 60, ⟨5, 2⟩⟩⟩ :=
  (retire_spec ⟨60, ⟨5, 2⟩⟩ "m"
    ⟨[(5, ⟨⟨100, ⟨5, 2⟩⟩, ⟨1000, ⟨5, 2⟩⟩, 1⟩)], [((1, 5), ⟨⟨100, ⟨5, 2⟩⟩⟩)]⟩
    ⟨⟨100, ⟨5, 2⟩⟩, ⟨1000, ⟨5, 2⟩⟩, 1⟩ ⟨⟨100, ⟨5, 2⟩⟩⟩
    (by decide) (by decide) (by decide) (by decide) (by decide)).1 (by decide)

/-- C7: close(owner, symbol): an existing (owner, symbol) row with zero
balance is deleted; an existing row with nonzero balance makes close
fail with InsufficientBalance and leaves the transactional state
unchanged; an absent row makes close a silent no-op returning the state
unchanged without error. -/
theorem close_spec (owner : Name) (sym : Symbol) (s : State) :
    (∀ a, alookup s.accounts (owner, sym.code) = some a →
       (a.balance.amount = 0 →
          closeAct owner sym s =
            .ok { s with accounts := aerase s.accounts (owner, sym.code) } ∧
          ((s.accounts.map Prod.fst).Nodup →
            alookup (aerase s.accounts (owner, sym.code)) (owner, sym.code) = none)) ∧
       (a.balance.amount ≠ 0 →
          closeAct owner sym s = .error .InsufficientBalance ∧
          applyOp (Op.closeOp owner sym) s = s)) ∧
    (alookup s.accounts (owner, sym.code) = none → closeAct owner sym s = .ok s) := by
  constructor
  · intro a ha
    constructor
    · intro hz
      constructor
      · unfold closeAct
        simp only [ha]
        rw [if_neg (by simp [hz])]
      · intro hnd
        exact alookup_aerase_self hnd
    · intro hnz
      have herr : closeAct owner sym s = .error .InsufficientBalance := by
        unfold closeAct
        simp only [ha]
        rw [if_pos hnz]
      refine ⟨herr, ?_⟩
      unfold applyOp
      simp only [exec]
      rw [herr]
  · intro hn
    unfold closeAct
    simp only [hn]

theorem close_spec_witness :
    (closeAct 1 ⟨5, 2⟩ ⟨[], [((1, 5), ⟨⟨0, ⟨5, 2⟩⟩⟩)]⟩ = .ok ⟨[], []⟩ ∧
     alookup (aerase ([((1, 5), (⟨⟨0, ⟨5, 2⟩⟩⟩ : Account))]) (1, 5)) (1, 5) = none) ∧
    (closeAct 1 ⟨5, 2⟩ ⟨[], [((1, 5), ⟨⟨7, ⟨5, 2⟩⟩⟩)]⟩ = .error .InsufficientBalance ∧
     applyOp (Op.closeOp 1 ⟨5, 2⟩) ⟨[], [((1, 5), ⟨⟨7, ⟨5, 2⟩⟩⟩)]⟩ =
       ⟨[], [((1, 5), ⟨⟨7, ⟨5, 2⟩⟩⟩)]⟩) ∧
    closeAct 1 ⟨5, 2⟩ ⟨[], []⟩ = .ok ⟨[], []⟩ := by
  refine ⟨⟨?_, ?_⟩, ?_, ?_⟩
  · exact ((close_spec 1 ⟨5, 2⟩ ⟨[], [((1, 5), ⟨⟨0, ⟨5, 2⟩⟩⟩)]⟩).1
      ⟨⟨0, ⟨5, 2⟩⟩⟩ (by decide)).1 (by decide) |>.1
  · exact ((close_spec 1 ⟨5, 2⟩ ⟨[], [((1, 5), ⟨⟨0, ⟨5, 2⟩⟩⟩)]⟩).1
      ⟨⟨0, ⟨5, 2⟩⟩⟩ (by decide)).1 (by decide) |>.2 (by decide)
  · exact ((close_spec 1 ⟨5, 2⟩ ⟨[], [((1, 5), ⟨⟨7, ⟨5, 2⟩⟩⟩)]⟩).1
      ⟨⟨7, ⟨5, 2⟩⟩⟩ (by decide)).2 (by decide)
  · exact (close_spec 1 ⟨5, 2⟩ ⟨[], []⟩).2 (by decide)

/-- C8: open is idempotent: when a TokenStats row for the symbol exists,
running open twice in succession produces exactly the state of running
it once, the second call succeeds, and a previously absent (owner,
symbol) row exists with zero balance after open. -/
theorem open_idempotent (owner : Name) (sym : Symbol) (payer : Name) (s : State)
    (st : CurrencyStats) (h : alookup s.stats sym.code = some st) :
    applyOp (Op.openOp owner sym payer) (applyOp (Op.openOp owner sym payer) s) =
      applyOp (Op.openOp owner sym payer) s ∧
    (∃ s2, openAct owner sym payer (applyOp (Op.openOp owner sym payer) s) = .ok s2) ∧
    (alookup s.accounts (owner, sym.code) = none →
      alookup (applyOp (Op.openOp owner sym payer) s).accounts (owner, sym.code) =
        some ⟨⟨0, sym⟩⟩) := by
  cases hac : alookup s.accounts (owner, sym.code) with
  | some a =>
      have h1 : openAct owner sym payer s = .ok s := by
        unfold openAct
        simp only [h, hac]
      have happ : applyOp (Op.openOp owner sym payer) s = s := by
        unfold applyOp
        simp only [exec]
        rw [h1]
      refine ⟨?_, ⟨s, ?_⟩, ?_⟩
      · rw [happ, happ]
      · rw [happ]
        exact h1
      · intro hnone
        exact Option.noConfusion hnone
  | none =>
      have h1 : openAct owner sym payer s =
          .ok { s with accounts := ((owner, sym.code), ⟨⟨0, sym⟩⟩) :: s.accounts } := by
        unfold openAct
        simp only [h, hac]
      have happ : applyOp (Op.openOp owner sym payer) s =
          { s with accounts := ((owner, sym.code), ⟨⟨0, sym⟩⟩) :: s.accounts } := by
        unfold applyOp
        simp only [exec]
        rw [h1]
      have hlk1 : alookup
          ({ s with accounts := ((owner, sym.code), ⟨⟨0, sym⟩⟩) :: s.accounts } :
            State).accounts (owner, sym.code) = some ⟨⟨0, sym⟩⟩ := by
        show alookup (((owner, sym.code), (⟨⟨0, sym⟩⟩ : Account)) :: s.accounts)
          (owner, sym.code) = some ⟨⟨0, sym⟩⟩
        rw [alookup, if_pos rfl]
      have h2 : openAct owner sym payer
          { s with accounts := ((owner, sym.code), ⟨⟨0, sym⟩⟩) :: s.accounts } =
          .ok { s with accounts := ((owner, sym.code), ⟨⟨0, sym⟩⟩) :: s.accounts } := by
        unfold openAct
        simp only [hlk1]
        have hst2 : alookup
            ({ s with accounts := ((owner, sym.code), ⟨⟨0, sym⟩⟩) :: s.accounts } :
              State).stats sym.code = some st := h
        simp only [hst2]
      refine ⟨?_, ?_, ?_⟩
      · rw [happ]
        unfold applyOp
        simp only [exec]
        rw [h2]
      · rw [happ]
        exact ⟨_, h2⟩
      · intro _
        rw [happ]
        exact hlk1

theorem open_idempotent_witness :
    applyOp (Op.openOp 2 ⟨5, 2⟩ 2)
        (applyOp (Op.openOp 2 ⟨5, 2⟩ 2)
          (applyOp (Op.createOp 1 ⟨1000, ⟨5, 2⟩⟩) State.empty)) =
      applyOp (Op.openOp 2 ⟨5, 2⟩ 2)
        (applyOp (Op.createOp 1 ⟨1000, ⟨5, 2⟩⟩) State.empty) ∧
    (∃ s2, openAct 2 ⟨5, 2⟩ 2
        (applyOp (Op.openOp 2 ⟨5, 2⟩ 2)
          (applyOp (Op.createOp 1 ⟨1000, ⟨5, 2⟩⟩) State.empty)) = .ok s2) ∧
    alookup (applyOp (Op.openOp 2 ⟨5, 2⟩ 2)
        (applyOp (Op.createOp 1 ⟨1000, ⟨5, 2⟩⟩) State.empty)).accounts (2, 5) =
      some ⟨⟨0, ⟨5, 2⟩⟩⟩ := by
  have h := open_idempotent 2 ⟨5, 2⟩ 2
    (applyOp (Op.createOp 1 ⟨1000, ⟨5, 2⟩⟩) State.empty)
    ⟨⟨0, ⟨5, 2⟩⟩, ⟨1000, ⟨5, 2⟩⟩, 1⟩ (by decide)
  exact ⟨h.1, h.2.1, h.2.2 (by decide)⟩

/-- C9: read-only queries: get_supply returns the supply field of the
TokenStats row of the symbol code and fails (none) when the row is
absent; get_balance returns the balance field of the (owner, symbol
code) AccountBalance row and fails (none) when the row is absent; both
are pure functions of the state. -/
theorem queries_spec (s : State) (owner : Name) (c : Nat) :
    ((∀ st, alookup s.stats c = some st → get_supply s c = some st.supply) ∧
     (alookup s.stats c = none → get_supply s c = none)) ∧
    ((∀ a, alookup s.accounts (owner, c) = some a →
        get_balance s owner c = some a.balance) ∧
     (alookup s.accounts (owner, c) = none → get_balance s owner c = none)) := by
  refine ⟨⟨?_, ?_⟩, ?_, ?_⟩
  · intro st h
    unfold get_supply
    rw [h]
    rfl
  · intro h
    unfold get_supply
    rw [h]
    rfl
  · intro a h
    unfold get_balance
    rw [h]
    rfl
  · intro h
    unfold get_balance
    rw [h]
    rfl

theorem queries_spec_witness :
    get_supply ⟨[(5, ⟨⟨40, ⟨5, 2⟩⟩, ⟨1000, ⟨5, 2⟩⟩, 1⟩)],
        [((1, 5), ⟨⟨40, ⟨5, 2⟩⟩⟩)]⟩ 5 = some ⟨40, ⟨5, 2⟩⟩ ∧
    get_supply ⟨[(5, ⟨⟨40, ⟨5, 2⟩⟩, ⟨1000, ⟨5, 2⟩⟩, 1⟩)],
        [((1, 5), ⟨⟨40, ⟨5, 2⟩⟩⟩)]⟩ 6 = none ∧
    get_balance ⟨[(5, ⟨⟨40, ⟨5, 2⟩⟩, ⟨1000, ⟨5, 2⟩⟩, 1⟩)],
        [((1, 5), ⟨⟨40, ⟨5, 2⟩⟩⟩)]⟩ 1 5 = some ⟨40, ⟨5, 2⟩⟩ ∧
    get_balance ⟨[(5, ⟨⟨40, ⟨5, 2⟩⟩, ⟨1000, ⟨5, 2⟩⟩, 1⟩)],
        [((1, 5), ⟨⟨40, ⟨5, 2⟩⟩⟩)]⟩ 2 5 = none := by
  have h1 := queries_spec ⟨[(5, ⟨⟨40, ⟨5, 2⟩⟩, ⟨1000, ⟨5, 2⟩⟩, 1⟩)],
    [((1, 5), ⟨⟨40, ⟨5, 2⟩⟩⟩)]⟩ 1 5
  have h2 := queries_spec ⟨[(5, ⟨⟨40, ⟨5, 2⟩⟩, ⟨1000, ⟨5, 2⟩⟩, 1⟩)],
    [((1, 5), ⟨⟨40, ⟨5, 2⟩⟩⟩)]⟩ 2 6
  exact ⟨h1.1.1 ⟨⟨40, ⟨5, 2⟩⟩, ⟨1000, ⟨5, 2⟩⟩, 1⟩ (by decide),
    h2.1.2 (by decide),
    h1.2.1 ⟨⟨40, ⟨5, 2⟩⟩⟩ (by decide),
    h2.2.2 (by decide)⟩

/-- C10: balance rows are keyed by symbol code only: in every reachable
state every accounts-table row is stored under a key whose primary-key
part equals `account::primary_key`, i.e. the raw symbol code of the
stored balance asset; within an owner scope no two rows share a primary
key (so at most one row per symbol code regardless of precision); and a
successful get_balance for a symbol code returns an asset of exactly
that code. -/
theorem account_key_spec {s : State} (hs : Reachable s) :
    (∀ p ∈ s.accounts, p.1.2 = p.2.primary_key) ∧
    (s.accounts.map Prod.fst).Nodup ∧
    (∀ owner c a, get_balance s owner c = some a → a.sym.code = c) := by
  obtain ⟨_, _, hacc⟩ := inv_reachable hs
  refine ⟨?_, hacc.2, ?_⟩
  · intro p hp
    exact (hacc.1 p hp).2
  · intro owner c a hga
    unfold get_balance at hga
    cases hl : alookup s.accounts (owner, c) with
    | none =>
        rw [hl] at hga
        exact Option.noConfusion hga
    | some acct =>
        rw [hl] at hga
        simp at hga
        have hk := (hacc.1 _ (alookup_mem hl)).2
        simp only [Prod.snd] at hk
        rw [← hga]
        exact hk.symm

theorem account_key_spec_witness :
    ((applyOp (Op.issueOp 1 ⟨100, ⟨5, 2⟩⟩ "m")
        (applyOp (Op.createOp 1 ⟨1000, ⟨5, 2⟩⟩) State.empty)).accounts.map
      Prod.fst).Nodup ∧
    (⟨100, ⟨5, 2⟩⟩ : Asset).sym.code = 5 := by
  have h := account_key_spec
    (Reachable.step (Op.issueOp 1 ⟨100, ⟨5, 2⟩⟩ "m")
      (Reachable.step (Op.createOp 1 ⟨1000, ⟨5, 2⟩⟩) Reachable.empty))
  exact ⟨h.2.1, h.2.2 1 5 ⟨100, ⟨5, 2⟩⟩ (by decide)⟩

end AtromToken
